import Mathlib

set_option maxHeartbeats 1000000

/-! Shallow embedding of `src/kr8s/_config.py`: the classes `KubeConfig`
(one kubeconfig document) and `KubeConfigSet` (an ordered collection of
them with merged read projections), together with the name-keyed merge
utility the module imports from `kr8s._data_utils`. -/

/-- One element of a kubeconfig entity list: a record with a `name` key and
the associated spec (the `cluster`, `user` or `context` value in the
source documents). -/
structure NamedEntry (α : Type) where
  name : String
  value : α
deriving DecidableEq, Repr

/-- The spec part of a context entry.  `nspace` models the optional
`namespace` key (absent means `none`); `extra` stands for the remaining
opaque data (cluster and user references) that the code passes through
untouched. -/
structure ContextSpec where
  nspace : Option String
  extra : String
deriving DecidableEq, Repr

/-- A parsed kubeconfig document (the value of `self._raw` once loaded).
Cluster and user specs, and preference and extension payloads, are opaque
to the code and modelled as strings; `extensions` is an optional top-level
key. -/
structure KubeconfigDoc where
  apiVersion : String
  kind : String
  preferences : String
  clusters : List (NamedEntry String)
  users : List (NamedEntry String)
  contexts : List (NamedEntry ContextSpec)
  currentContext : String
  extensions : Option (List String)
deriving DecidableEq, Repr

instance : Inhabited ContextSpec := ⟨⟨none, ""⟩⟩

instance : Inhabited KubeconfigDoc := ⟨⟨"", "", "", [], [], [], "", none⟩⟩

/-- Modelled from the spec: `kr8s._data_utils.list_dict_unpack` and
`dict_list_pack` are imported by `_config.py` but their module is not among
the sources; section 6 of the spec gives their contract (unpack a list of
named entries into a name-to-value mapping with last-value-wins, pack is
the inverse).  `upsertPair` is a single insertion into that mapping,
realised as an insertion-ordered association list: an existing name keeps
its position and receives the new value, a new name is appended at the
end. -/
def upsertPair {α : Type} : List (String × α) → String → α → List (String × α)
  | [], k, v => [(k, v)]
  | p :: rest, k, v => if p.1 = k then (k, v) :: rest else p :: upsertPair rest k v

/-- Modelled from the spec: unpack a list of named entries into the
name-to-value mapping; later duplicates override earlier values. -/
def list_dict_unpack {α : Type} (l : List (NamedEntry α)) : List (String × α) :=
  l.foldl (fun m e => upsertPair m e.name e.value) []

/-- Modelled from the spec: repack the name-to-value mapping into a list of
named entries. -/
def dict_list_pack {α : Type} (m : List (String × α)) : List (NamedEntry α) :=
  m.map (fun p => ⟨p.1, p.2⟩)

/-- The unpack-then-repack deduplication step used by the merged
projections (`_config.py` lines 134-156). -/
def mergeByName {α : Type} (l : List (NamedEntry α)) : List (NamedEntry α) :=
  dict_list_pack (list_dict_unpack l)

/-- A `KubeConfig` whose content is loaded: `path` plus the parsed
document.  Every accessor and mutator below requires this state, matching
the code, which would fail on `self._raw[...]` when the content is still
`None`. -/
structure KubeConfig where
  path : String
  raw : KubeconfigDoc
deriving DecidableEq, Repr

instance : Inhabited KubeConfig := ⟨⟨"", default⟩⟩

/-- Result of a mutating `KubeConfig` method: the exception raised (if
any), the object state afterwards, and the paths on which `save` was
invoked, in order.  The disk effect of `save` itself is modelled
separately on `LazyKubeConfig`. -/
structure KOpResult where
  err : Option String
  cfg : KubeConfig
  saves : List String
deriving DecidableEq, Repr

/-- The names of the contexts of one document:
`[c["name"] for c in self.contexts]`. -/
def KubeConfig.contextNames (c : KubeConfig) : List String :=
  c.raw.contexts.map NamedEntry.name

/-- Property `clusters` of `KubeConfig`. -/
def KubeConfig.clusters (c : KubeConfig) : List (NamedEntry String) :=
  c.raw.clusters

/-- Property `users` of `KubeConfig`. -/
def KubeConfig.users (c : KubeConfig) : List (NamedEntry String) :=
  c.raw.users

/-- Property `contexts` of `KubeConfig`. -/
def KubeConfig.contexts (c : KubeConfig) : List (NamedEntry ContextSpec) :=
  c.raw.contexts

/-- Property `extensions` of `KubeConfig`: the `extensions` key when
present, else the empty list. -/
def KubeConfig.extensions (c : KubeConfig) : List String :=
  c.raw.extensions.getD []

/-- Method `use_context` of `KubeConfig` (lines 200-205): reject an unknown
name unless `allow_unknown`, otherwise set `current-context` and save. -/
def KubeConfig.use_context (c : KubeConfig) (context : String)
    (allow_unknown : Bool) : KOpResult :=
  if allow_unknown = false ∧ context ∉ c.contextNames then
    ⟨some ("Context " ++ context ++ " not found"), c, []⟩
  else
    ⟨none, { c with raw := { c.raw with currentContext := context } }, [c.path]⟩

/-- The loop body of `rename_context`: rename the first entry named `old`
to `new`, leaving everything else in place. -/
def renameFirst (old new : String) :
    List (NamedEntry ContextSpec) → List (NamedEntry ContextSpec)
  | [] => []
  | e :: rest =>
    if e.name = old then { e with name := new } :: rest
    else e :: renameFirst old new rest

/-- Method `rename_context` of `KubeConfig` (lines 207-216): rename the
first context named `old`; when that was the current context, additionally
run `use_context new` (an extra save) before the final save; raise when no
context is named `old`. -/
def KubeConfig.rename_context (c : KubeConfig) (old new : String) : KOpResult :=
  if old ∈ c.contextNames then
    let c1 : KubeConfig :=
      { c with raw := { c.raw with contexts := renameFirst old new c.raw.contexts } }
    if c.raw.currentContext = old then
      let r := c1.use_context new false
      match r.err with
      | some e => ⟨some e, r.cfg, r.saves⟩
      | none => ⟨none, r.cfg, r.saves ++ [c.path]⟩
    else ⟨none, c1, [c1.path]⟩
  else ⟨some ("Context " ++ old ++ " not found"), c, []⟩

/-- Method `use_namespace` of `KubeConfig` (lines 194-198): set the
`namespace` key of every context entry named like the current context,
then save; no error when nothing matches. -/
def KubeConfig.use_namespace (c : KubeConfig) (ns : String) : KOpResult :=
  let ctxs := c.raw.contexts.map (fun e =>
    if e.name = c.raw.currentContext then ⟨e.name, ⟨some ns, e.value.extra⟩⟩ else e)
  ⟨none, { c with raw := { c.raw with contexts := ctxs } }, [c.path]⟩

/-- The `KubeConfigSet` state after construction: the ordered member list
`self._configs`. -/
structure KubeConfigSet where
  configs : List KubeConfig
deriving DecidableEq, Repr

instance : Inhabited KubeConfigSet := ⟨⟨[]⟩⟩

/-- Result of a mutating `KubeConfigSet` method: raised exception (if
any), the member list afterwards, and the paths on which `save` was
invoked, in order. -/
structure SOpResult where
  err : Option String
  cfgs : List KubeConfig
  saves : List String
deriving DecidableEq, Repr

/-- Property `clusters` of `KubeConfigSet` (lines 134-140): concatenate
all members' cluster lists, then unpack and repack to remove
duplicates. -/
def KubeConfigSet.clusters (s : KubeConfigSet) : List (NamedEntry String) :=
  mergeByName (s.configs.map KubeConfig.clusters).flatten

/-- Property `users` of `KubeConfigSet` (lines 142-148). -/
def KubeConfigSet.users (s : KubeConfigSet) : List (NamedEntry String) :=
  mergeByName (s.configs.map KubeConfig.users).flatten

/-- Property `contexts` of `KubeConfigSet` (lines 150-156). -/
def KubeConfigSet.contexts (s : KubeConfigSet) : List (NamedEntry ContextSpec) :=
  mergeByName (s.configs.map KubeConfig.contexts).flatten

/-- Property `extensions` of `KubeConfigSet` (lines 158-162): plain
concatenation, no dedup. -/
def KubeConfigSet.extensions (s : KubeConfigSet) : List String :=
  (s.configs.map KubeConfig.extensions).flatten

/-- Property `preferences` of `KubeConfigSet` (lines 130-132): the first
member's preferences only. -/
def KubeConfigSet.preferences (s : KubeConfigSet) : String :=
  (s.configs.headI).raw.preferences

/-- Property `current_context` of `KubeConfigSet` (lines 73-79): the first
member's `current-context`; other members are ignored. -/
def KubeConfigSet.current_context (s : KubeConfigSet) : String :=
  (s.configs.headI).raw.currentContext

/-- The loop of `get_path`: the path of the first member defining the
context, if any. -/
def findPathLoop (context : String) : List KubeConfig → Option String
  | [] => none
  | c :: rest =>
    if context ∈ c.contextNames then some c.path else findPathLoop context rest

/-- Method `get_path` of `KubeConfigSet` (lines 43-55).  A `None` argument
and an empty-string argument are both falsy in `if not context:` and are
replaced by the current context; when the resolved context is itself empty
the loop is skipped (`if context:`) and the first member's path is
returned. -/
def KubeConfigSet.get_path (s : KubeConfigSet) (context : Option String) : String :=
  let ctx := match context with
    | none => s.current_context
    | some c => if c = "" then s.current_context else c
  if ctx = "" then (s.configs.headI).path
  else
    match findPathLoop ctx s.configs with
    | some p => p
    | none => (s.configs.headI).path

/-- Property `path` of `KubeConfigSet` (lines 39-41). -/
def KubeConfigSet.path (s : KubeConfigSet) : String :=
  s.get_path none

/-- Method `use_context` of `KubeConfigSet` (lines 93-97): raise when the
name is not in the merged context list, else delegate to the first
member's `use_context` with `allow_unknown=True`. -/
def KubeConfigSet.use_context (s : KubeConfigSet) (context : String) : SOpResult :=
  if context ∉ s.contexts.map NamedEntry.name then
    ⟨some ("Context " ++ context ++ " not found"), s.configs, []⟩
  else
    match s.configs with
    | [] => ⟨some ("IndexError: list index out of range"), [], []⟩
    | c0 :: rest =>
      let r := c0.use_context context true
      ⟨r.err, r.cfg :: rest, r.saves⟩

/-- Method `get_context` of `KubeConfigSet` (lines 109-114): linear lookup
in the merged context list. -/
def KubeConfigSet.get_context (s : KubeConfigSet) (context_name : String) :
    Except String ContextSpec :=
  match s.contexts.find? (fun e => e.name == context_name) with
  | some e => Except.ok e.value
  | none => Except.error ("Context " ++ context_name ++ " not found")

/-- Property `current_namespace` of `KubeConfigSet` (lines 81-84): the
`namespace` key of the current context, defaulting to `"default"`;
propagates the lookup failure of `get_context`. -/
def KubeConfigSet.current_namespace (s : KubeConfigSet) : Except String String :=
  (s.get_context s.current_context).map (fun spec => spec.nspace.getD "default")

/-- The synthetic merged single-document view produced by
`KubeConfigSet.raw`; `extensionsField` is `none` when the `extensions` key
is not added to the dictionary. -/
structure RawView where
  apiVersion : String
  kind : String
  preferences : String
  clusters : List (NamedEntry String)
  users : List (NamedEntry String)
  contexts : List (NamedEntry ContextSpec)
  currentContext : String
  extensionsField : Option (List String)
deriving DecidableEq, Repr

/-- Property `raw` of `KubeConfigSet` (lines 57-71): fixed `apiVersion`
and `kind`, the merged projections, and an `extensions` key only when the
concatenated extensions are non-empty (truthiness of the list). -/
def KubeConfigSet.raw (s : KubeConfigSet) : RawView :=
  { apiVersion := "v1"
    kind := "Config"
    preferences := s.preferences
    clusters := s.clusters
    users := s.users
    contexts := s.contexts
    currentContext := s.current_context
    extensionsField := if s.extensions = [] then none else some s.extensions }

/-- A `KubeConfig` as constructed, before the loading guarantee: `_raw`
may still be `None` (modelled by `none`). -/
structure LazyKubeConfig where
  path : String
  raw : Option KubeconfigDoc
deriving DecidableEq, Repr

/-- What `yaml.safe_dump` of `self._raw` parses back to: `None` or a
document.  The external codec is modelled as the identity at document
level. -/
abbrev FileContent := Option KubeconfigDoc

/-- The file system visible to `save`: an insertion-ordered map from path
to parsed file content. -/
abbrev FS := List (String × FileContent)

/-- Method `save` of `KubeConfig` (lines 180-184) as written: the guard
`if not self._raw:` means the file is written only when the content is
*absent* (and then the serialization of `None` is written); when the
content is loaded, nothing at all is written. -/
def LazyKubeConfig.save (c : LazyKubeConfig) (fs : FS) : FS :=
  match c.raw with
  | none => upsertPair fs c.path none
  | some _ => fs

/-- Constructor of `KubeConfigSet` (lines 20-25) as written: for each
supplied element it evaluates `KubeConfig(kubeconfig)`, passing the whole
(path, content) pair as the single positional `path` argument and omitting
the required second parameter `raw` of `KubeConfig.__init__` (line 166);
in Python this raises `TypeError` on the first element, so construction
fails for every non-empty argument sequence and only succeeds (vacuously)
for the empty one. -/
def KubeConfigSet.ofPairs (pairs : List (String × Option KubeconfigDoc)) :
    Except String KubeConfigSet :=
  match pairs with
  | [] => Except.ok ⟨[]⟩
  | _ :: _ =>
    Except.error ("TypeError: KubeConfig() missing 1 required positional argument: raw")

/-! Lemmas about the unpack/repack merge utility. -/

theorem unpack_concat {α : Type} (l : List (NamedEntry α)) (e : NamedEntry α) :
    list_dict_unpack (l ++ [e]) = upsertPair (list_dict_unpack l) e.name e.value := by
  simp [list_dict_unpack, List.foldl_append]

theorem upsert_keys {α : Type} (m : List (String × α)) (k : String) (v : α) :
    (upsertPair m k v).map Prod.fst =
      if k ∈ m.map Prod.fst then m.map Prod.fst else m.map Prod.fst ++ [k] := by
  induction m with
  | nil => simp [upsertPair]
  | cons p rest ih =>
    by_cases h : p.1 = k
    · simp [upsertPair, h]
    · simp only [upsertPair, if_neg h, List.map_cons, ih]
      by_cases hk : k ∈ rest.map Prod.fst
      · simp [hk, Ne.symm h]
      · simp [hk, Ne.symm h]

theorem mem_unpack_keys {α : Type} (l : List (NamedEntry α)) (k : String) :
    k ∈ (list_dict_unpack l).map Prod.fst ↔ k ∈ l.map NamedEntry.name := by
  induction l using List.reverseRecOn generalizing k with
  | nil => simp [list_dict_unpack]
  | append_singleton l e ih =>
    rw [unpack_concat, upsert_keys]
    by_cases h : e.name ∈ (list_dict_unpack l).map Prod.fst
    · rw [if_pos h]
      have he : e.name ∈ l.map NamedEntry.name := (ih e.name).mp h
      simp only [ih, List.map_append, List.mem_append, List.map_singleton,
        List.mem_singleton]
      exact ⟨Or.inl, fun hk => hk.elim id (fun hk => hk ▸ he)⟩
    · rw [if_neg h]
      simp [ih]

theorem unpack_keys_nodup {α : Type} (l : List (NamedEntry α)) :
    ((list_dict_unpack l).map Prod.fst).Nodup := by
  induction l using List.reverseRecOn with
  | nil => simp [list_dict_unpack]
  | append_singleton l e ih =>
    rw [unpack_concat, upsert_keys]
    by_cases h : e.name ∈ (list_dict_unpack l).map Prod.fst
    · simpa [h] using ih
    · simpa [h, List.nodup_append] using ih

theorem upsert_not_mem {α : Type} (m : List (String × α)) (k : String) (v : α)
    (h : k ∉ m.map Prod.fst) : upsertPair m k v = m ++ [(k, v)] := by
  induction m with
  | nil => simp [upsertPair]
  | cons p rest ih =>
    have h1 : p.1 ≠ k := by
      intro hk; exact h (by simp [hk])
    have h2 : k ∉ rest.map Prod.fst := by
      intro hk; exact h (by simp [hk])
    simp [upsertPair, h1, ih h2]

theorem unpack_of_nodup {α : Type} (l : List (NamedEntry α))
    (h : (l.map NamedEntry.name).Nodup) :
    list_dict_unpack l = l.map (fun e => (e.name, e.value)) := by
  induction l using List.reverseRecOn with
  | nil => simp [list_dict_unpack]
  | append_singleton l e ih =>
    rw [List.map_append, List.map_singleton, List.nodup_append] at h
    obtain ⟨h1, _, h3⟩ := h
    have hne : e.name ∉ l.map NamedEntry.name := by
      intro hk
      exact h3 hk (by simp)
    rw [unpack_concat, ih h1, upsert_not_mem]
    · simp
    · simpa using hne

theorem upsert_mem_eq {α : Type} (m : List (String × α)) (k : String) (v : α)
    (hnd : (m.map Prod.fst).Nodup) (hm : (k, v) ∈ m) : upsertPair m k v = m := by
  induction m with
  | nil => cases hm
  | cons p rest ih =>
    by_cases h : p.1 = k
    · have hp : p = (k, v) := by
        rcases List.mem_cons.mp hm with hm | hm
        · exact hm.symm
        · exfalso
          have : k ∈ rest.map Prod.fst := by
            exact List.mem_map.mpr ⟨(k, v), hm, rfl⟩
          rw [List.map_cons, List.nodup_cons] at hnd
          exact hnd.1 (h ▸ this)
      simp [upsertPair, h, hp]
    · have hm' : (k, v) ∈ rest := by
        rcases List.mem_cons.mp hm with hm | hm
        · exact absurd (congrArg Prod.fst hm.symm) h
        · exact hm
      rw [List.map_cons, List.nodup_cons] at hnd
      simp [upsertPair, h, ih hnd.2 hm']

theorem foldl_upsert_fixed {α : Type} (m : List (String × α)) (l : List (NamedEntry α))
    (h : ∀ e ∈ l, upsertPair m e.name e.value = m) :
    l.foldl (fun acc e => upsertPair acc e.name e.value) m = m := by
  induction l with
  | nil => rfl
  | cons e rest ih =>
    rw [List.foldl_cons, h e (by simp)]
    exact ih (fun x hx => h x (by simp [hx]))

theorem pack_map_self {α : Type} (l : List (NamedEntry α)) :
    dict_list_pack (l.map (fun e => (e.name, e.value))) = l := by
  rw [dict_list_pack, List.map_map]
  have : ((fun p : String × α => (⟨p.1, p.2⟩ : NamedEntry α)) ∘
      fun e : NamedEntry α => (e.name, e.value)) = id := by
    funext e; cases e; rfl
  rw [this, List.map_id]

theorem merge_self {α : Type} (l : List (NamedEntry α))
    (h : (l.map NamedEntry.name).Nodup) : mergeByName (l ++ l) = l := by
  have hkeys : ((l.map fun e => (e.name, e.value)).map Prod.fst).Nodup := by
    rw [List.map_map]
    simpa using h
  have hfix : ∀ e ∈ l,
      upsertPair (l.map fun x => (x.name, x.value)) e.name e.value =
        (l.map fun x => (x.name, x.value)) := by
    intro e he
    exact upsert_mem_eq _ _ _ hkeys (List.mem_map.mpr ⟨e, he, rfl⟩)
  rw [mergeByName, list_dict_unpack, List.foldl_append]
  rw [show (List.foldl (fun m e => upsertPair m e.name e.value) [] l) =
      list_dict_unpack l from rfl]
  rw [unpack_of_nodup l h, foldl_upsert_fixed _ _ hfix, pack_map_self]

theorem find_upsert_eq {α : Type} (m : List (String × α)) (k : String) (v : α) :
    (upsertPair m k v).find? (fun p => p.1 == k) = some (k, v) := by
  induction m with
  | nil => simp [upsertPair]
  | cons p rest ih =>
    by_cases h : p.1 = k
    · simp [upsertPair, h]
    · simp [upsertPair, h, ih]

theorem find_upsert_ne {α : Type} (m : List (String × α)) (k kk : String) (v : α)
    (hne : kk ≠ k) :
    (upsertPair m kk v).find? (fun p => p.1 == k) = m.find? (fun p => p.1 == k) := by
  induction m with
  | nil => simp [upsertPair, hne]
  | cons p rest ih =>
    by_cases h : p.1 = kk
    · have hpk : p.1 ≠ k := fun hk => hne (h.symm.trans hk)
      simp [upsertPair, h, hne, hpk]
    · by_cases hk : p.1 = k
      · simp only [upsertPair, if_neg h]
        simp [hk]
      · simp only [upsertPair, if_neg h]
        simp [hk, ih]

theorem find_none_of_not_mem_names {α : Type} (l : List (NamedEntry α)) (k : String)
    (h : k ∉ l.map NamedEntry.name) : l.find? (fun e => e.name == k) = none := by
  rw [List.find?_eq_none]
  intro e he hbeq
  exact h (List.mem_map.mpr ⟨e, he, (eq_of_beq hbeq)⟩)

theorem find_reverse_of_nodup {α : Type} (l : List (NamedEntry α)) (k : String)
    (h : (l.map NamedEntry.name).Nodup) :
    l.reverse.find? (fun e => e.name == k) = l.find? (fun e => e.name == k) := by
  induction l with
  | nil => simp
  | cons e rest ih =>
    rw [List.map_cons, List.nodup_cons] at h
    rw [List.reverse_cons, List.find?_append]
    by_cases hk : e.name = k
    · have hnone : rest.reverse.find? (fun x => x.name == k) = none := by
        apply find_none_of_not_mem_names
        rw [List.map_reverse, List.mem_reverse]
        exact hk ▸ h.1
      simp [hnone, hk]
    · simp [ih h.2, hk]

theorem unpack_find {α : Type} (l : List (NamedEntry α)) (k : String) :
    (list_dict_unpack l).find? (fun p => p.1 == k) =
      (l.reverse.find? (fun e => e.name == k)).map (fun e => (k, e.value)) := by
  induction l using List.reverseRecOn with
  | nil => simp [list_dict_unpack]
  | append_singleton l e ih =>
    rw [unpack_concat, List.reverse_append]
    by_cases h : e.name = k
    · rw [h, find_upsert_eq]
      simp [h]
    · rw [find_upsert_ne _ _ _ _ h, ih]
      simp [h]

theorem pack_names {α : Type} (m : List (String × α)) :
    (dict_list_pack m).map NamedEntry.name = m.map Prod.fst := by
  simp [dict_list_pack, List.map_map]

theorem mergeByName_names_mem {α : Type} (l : List (NamedEntry α)) (k : String) :
    k ∈ (mergeByName l).map NamedEntry.name ↔ k ∈ l.map NamedEntry.name := by
  rw [mergeByName, pack_names]
  exact mem_unpack_keys l k

theorem mergeByName_names_nodup {α : Type} (l : List (NamedEntry α)) :
    ((mergeByName l).map NamedEntry.name).Nodup := by
  rw [mergeByName, pack_names]
  exact unpack_keys_nodup l

theorem mergeByName_find_last {α : Type} (l1 l2 : List (NamedEntry α)) (k : String)
    (e : NamedEntry α) (h2 : l2.find? (fun x => x.name == k) = some e)
    (hnd : (l2.map NamedEntry.name).Nodup) :
    (mergeByName (l1 ++ l2)).find? (fun x => x.name == k) = some ⟨k, e.value⟩ := by
  rw [mergeByName, dict_list_pack, List.find?_map]
  have hcomp : ((fun x : NamedEntry α => x.name == k) ∘
      (fun p : String × α => (⟨p.1, p.2⟩ : NamedEntry α))) =
      fun p : String × α => p.1 == k := rfl
  rw [hcomp, unpack_find, List.reverse_append, List.find?_append,
    find_reverse_of_nodup l2 k hnd, h2]
  rfl

theorem mergeByName_count_one {α : Type} (l : List (NamedEntry α)) (k : String)
    (h : k ∈ l.map NamedEntry.name) :
    (mergeByName l).countP (fun x => x.name == k) = 1 := by
  have hmem : k ∈ (mergeByName l).map NamedEntry.name :=
    (mergeByName_names_mem l k).mpr h
  have hnd := mergeByName_names_nodup l
  have hcount : ((mergeByName l).map NamedEntry.name).count k = 1 :=
    List.count_eq_one_of_mem hnd hmem
  rw [List.count, List.countP_map] at hcount
  exact hcount

/-! Claim theorems. -/

/-- C1: the claimed contract fails on the code.  The guard
`if not self._raw:` in `save` (line 181) is inverted: when the content is
loaded, `save` performs no write at all and returns with the file system
untouched, so the on-disk file need not contain the serialization of the
in-memory content. -/
theorem save_skips_write_when_loaded (c : LazyKubeConfig) (fs : FS)
    (d : KubeconfigDoc) (h : c.raw = some d) : c.save fs = fs := by
  simp [LazyKubeConfig.save, h]

/-- Witness: a loaded config over an empty file system; after `save` the
file system is still empty, so the file at `c.path` does not hold the
document. -/
theorem save_skips_write_when_loaded_witness :
    (⟨"pa", some ⟨"v1", "Config", "prefs", [], [], [], "ctx", none⟩⟩ :
      LazyKubeConfig).save [] = [] :=
  save_skips_write_when_loaded _ []
    ⟨"v1", "Config", "prefs", [], [], [], "ctx", none⟩ rfl

/-- C2: the claim fails on the code: constructing a `KubeConfigSet` from a
single (path, content) pair raises `TypeError` (the member constructor is
called with one argument where two are required) instead of succeeding
with one member holding that path and content. -/
theorem configset_construction_fails :
    KubeConfigSet.ofPairs
        [("pa", some ⟨"v1", "Config", "prefs", [], [], [], "ctx", none⟩)] =
      Except.error
        ("TypeError: KubeConfig() missing 1 required positional argument: raw") :=
  rfl

/-- C3: in a two-member set whose members both define a cluster named `n`
with different specs (cluster names being unique inside each document, as
the data model requires), the merged `clusters` projection contains
exactly one entry named `n`, and its spec is the one from the second
member. -/
theorem configset_clusters_last_wins (c1 c2 : KubeConfig) (n s1 s2 : String)
    (hnd1 : (c1.clusters.map NamedEntry.name).Nodup)
    (hnd2 : (c2.clusters.map NamedEntry.name).Nodup)
    (h1 : c1.clusters.find? (fun e => e.name == n) = some ⟨n, s1⟩)
    (h2 : c2.clusters.find? (fun e => e.name == n) = some ⟨n, s2⟩)
    (hne : s1 ≠ s2) :
    (KubeConfigSet.mk [c1, c2]).clusters.countP (fun e => e.name == n) = 1 ∧
    (KubeConfigSet.mk [c1, c2]).clusters.find? (fun e => e.name == n) =
      some ⟨n, s2⟩ := by
  have hflat :
      ((KubeConfigSet.mk [c1, c2]).configs.map KubeConfig.clusters).flatten =
        c1.clusters ++ c2.clusters := by simp
  constructor
  · rw [KubeConfigSet.clusters, hflat]
    apply mergeByName_count_one
    have hm : n ∈ c2.clusters.map NamedEntry.name :=
      List.mem_map.mpr ⟨⟨n, s2⟩, List.mem_of_find?_eq_some h2, rfl⟩
    simp [hm]
  · rw [KubeConfigSet.clusters, hflat]
    exact mergeByName_find_last c1.clusters c2.clusters n ⟨n, s2⟩ h2 hnd2

/-- Sample member for the C3 witness: defines cluster c1 with spec
spec1. -/
def lastWinsA : KubeConfig :=
  ⟨"pa", ⟨"v1", "Config", "p1", [⟨"c1", "spec1"⟩], [], [], "ctx", none⟩⟩

/-- Sample member for the C3 witness: defines cluster c1 with spec
spec2. -/
def lastWinsB : KubeConfig :=
  ⟨"pb", ⟨"v1", "Config", "p2", [⟨"c1", "spec2"⟩], [], [], "ctx", none⟩⟩

/-- Witness: on the two sample members the merged clusters hold exactly
one entry named c1, carrying the second member's spec. -/
theorem configset_clusters_last_wins_witness :
    (KubeConfigSet.mk [lastWinsA, lastWinsB]).clusters.countP
        (fun e => e.name == "c1") = 1 ∧
    (KubeConfigSet.mk [lastWinsA, lastWinsB]).clusters.find?
        (fun e => e.name == "c1") = some ⟨"c1", "spec2"⟩ :=
  configset_clusters_last_wins lastWinsA lastWinsB "c1" "spec1" "spec2"
    (by decide) (by decide) (by decide) (by decide) (by decide)

/-- C4: a set built from the same member twice has the same merged
clusters, users and contexts as that member alone (entity names being
unique within one document, as the data model requires). -/
theorem configset_duplicate_member_merge (A : KubeConfig)
    (hc : (A.clusters.map NamedEntry.name).Nodup)
    (hu : (A.users.map NamedEntry.name).Nodup)
    (hx : (A.contexts.map NamedEntry.name).Nodup) :
    (KubeConfigSet.mk [A, A]).clusters = A.clusters ∧
    (KubeConfigSet.mk [A, A]).users = A.users ∧
    (KubeConfigSet.mk [A, A]).contexts = A.contexts := by
  refine ⟨?_, ?_, ?_⟩
  · have hflat : ((KubeConfigSet.mk [A, A]).configs.map KubeConfig.clusters).flatten =
        A.clusters ++ A.clusters := by simp
    rw [KubeConfigSet.clusters, hflat]
    exact merge_self _ hc
  · have hflat : ((KubeConfigSet.mk [A, A]).configs.map KubeConfig.users).flatten =
        A.users ++ A.users := by simp
    rw [KubeConfigSet.users, hflat]
    exact merge_self _ hu
  · have hflat : ((KubeConfigSet.mk [A, A]).configs.map KubeConfig.contexts).flatten =
        A.contexts ++ A.contexts := by simp
    rw [KubeConfigSet.contexts, hflat]
    exact merge_self _ hx

/-- Sample member for the C4 witness, with distinct entity names in each
list. -/
def dupMergeA : KubeConfig :=
  ⟨"pa", ⟨"v1", "Config", "p1", [⟨"c1", "s1"⟩, ⟨"c2", "s2"⟩],
    [⟨"u1", "t1"⟩], [⟨"k1", ⟨some "n1", "x1"⟩⟩, ⟨"k2", ⟨none, "x2"⟩⟩], "k1", none⟩⟩

/-- Witness: merging the sample member with itself reproduces its entity
lists. -/
theorem configset_duplicate_member_merge_witness :
    (KubeConfigSet.mk [dupMergeA, dupMergeA]).clusters = dupMergeA.clusters ∧
    (KubeConfigSet.mk [dupMergeA, dupMergeA]).users = dupMergeA.users ∧
    (KubeConfigSet.mk [dupMergeA, dupMergeA]).contexts = dupMergeA.contexts :=
  configset_duplicate_member_merge dupMergeA (by decide) (by decide) (by decide)

theorem findPathLoop_eq (ctx : String) (cfgs : List KubeConfig) :
    findPathLoop ctx cfgs =
      (cfgs.find? (fun c => decide (ctx ∈ c.contextNames))).map KubeConfig.path := by
  induction cfgs with
  | nil => simp [findPathLoop]
  | cons c rest ih =>
    by_cases h : ctx ∈ c.contextNames
    · simp [findPathLoop, h]
    · simp [findPathLoop, h, ih]

/-- C5 (amended): for a non-empty context name, `get_path` returns the
path of the first member defining that context, falling back to the first
member's path; with no argument it does the same for the current context,
except that an empty current context short-circuits to the first member's
path; an empty-string argument behaves exactly like no argument (it is
falsy), not like a lookup of the name `""`. -/
theorem configset_get_path_spec (c0 : KubeConfig) (rest : List KubeConfig)
    (n : String) :
    (n ≠ "" → (KubeConfigSet.mk (c0 :: rest)).get_path (some n) =
      (((c0 :: rest).find? (fun c => decide (n ∈ c.contextNames))).map
        KubeConfig.path).getD c0.path) ∧
    ((KubeConfigSet.mk (c0 :: rest)).get_path none =
      (if c0.raw.currentContext = "" then c0.path
       else (((c0 :: rest).find? (fun c =>
          decide (c0.raw.currentContext ∈ c.contextNames))).map
            KubeConfig.path).getD c0.path)) ∧
    ((KubeConfigSet.mk (c0 :: rest)).get_path (some "") =
      (KubeConfigSet.mk (c0 :: rest)).get_path none) := by
  refine ⟨?_, ?_, ?_⟩
  · intro hn
    rw [KubeConfigSet.get_path]
    simp only [if_neg hn, findPathLoop_eq]
    cases hfind : (c0 :: rest).find? (fun c => decide (n ∈ c.contextNames)) with
    | none => simp [hfind, if_neg hn]
    | some c => simp [hfind, if_neg hn]
  · rw [KubeConfigSet.get_path]
    simp only [KubeConfigSet.current_context, List.headI]
    by_cases hcc : c0.raw.currentContext = ""
    · simp [hcc]
    · simp only [if_neg hcc, findPathLoop_eq]
      cases hfind : (c0 :: rest).find?
          (fun c => decide (c0.raw.currentContext ∈ c.contextNames)) with
      | none => simp [hfind]
      | some c => simp [hfind]
  · rfl

/-- First member for the C5 counterexample and witness: defines a context
whose name is the empty string; its current context is ctx-b. -/
def emptyNameA : KubeConfig :=
  ⟨"pa", ⟨"v1", "Config", "p", [], [], [⟨"", ⟨none, "x"⟩⟩], "ctx-b", none⟩⟩

/-- Second member for the C5 counterexample and witness: defines context
ctx-b. -/
def emptyNameB : KubeConfig :=
  ⟨"pb", ⟨"v1", "Config", "p", [], [], [⟨"ctx-b", ⟨none, "y"⟩⟩], "ctx-b", none⟩⟩

/-- C5 counterexample: the first member defines a context named `""` and
has path pa, yet `get_path("")` returns pb — the empty-string argument is
falsy, so the code resolves the current context (ctx-b, defined by the
second member) instead of looking up the name `""` as the claim states. -/
theorem configset_get_path_empty_name_cex :
    (KubeConfigSet.mk [emptyNameA, emptyNameB]).get_path (some "") = "pb" ∧
    "" ∈ emptyNameA.contextNames ∧
    emptyNameA.path = "pa" ∧ ("pa" : String) ≠ "pb" := by
  refine ⟨by decide, by decide, by decide, by decide⟩

/-- Witness for the C5 theorem: on the sample set, looking up ctx-b (a
non-empty name, defined only by the second member) routes to pb, and the
no-argument form resolves the current context ctx-b to pb as well. -/
theorem configset_get_path_spec_witness :
    (KubeConfigSet.mk [emptyNameA, emptyNameB]).get_path (some "ctx-b") = "pb" ∧
    (KubeConfigSet.mk [emptyNameA, emptyNameB]).get_path none = "pb" := by
  have h := configset_get_path_spec emptyNameA [emptyNameB] "ctx-b"
  constructor
  · rw [h.1 (by decide)]
    decide
  · rw [h.2.1]
    decide

/-- C6: `use_context` on a set fails with the not-found error exactly when
the name is missing from the merged context list (whose membership equals
membership in the concatenation of the members' context lists); on failure
the members and the save log are untouched; on success the first member's
current context is set to the name (wherever the name is defined) and only
the first member is saved. -/
theorem configset_use_context_spec (c0 : KubeConfig) (rest : List KubeConfig)
    (context : String) :
    (context ∉ (KubeConfigSet.mk (c0 :: rest)).contexts.map NamedEntry.name →
      (KubeConfigSet.mk (c0 :: rest)).use_context context =
        ⟨some ("Context " ++ context ++ " not found"), c0 :: rest, []⟩) ∧
    (context ∈ (KubeConfigSet.mk (c0 :: rest)).contexts.map NamedEntry.name →
      (KubeConfigSet.mk (c0 :: rest)).use_context context =
        ⟨none, { c0 with raw := { c0.raw with currentContext := context } } :: rest,
          [c0.path]⟩) ∧
    (context ∈ (KubeConfigSet.mk (c0 :: rest)).contexts.map NamedEntry.name ↔
      context ∈ ((c0 :: rest).map KubeConfig.contexts).flatten.map NamedEntry.name) := by
  refine ⟨?_, ?_, ?_⟩
  · intro h
    simp [KubeConfigSet.use_context, h]
  · intro h
    rw [KubeConfigSet.use_context, if_neg (by simpa using h)]
    simp [KubeConfig.use_context]
  · exact mergeByName_names_mem _ context

/-- First member for the C6 witness: defines context a only. -/
def useCtxA : KubeConfig :=
  ⟨"pa", ⟨"v1", "Config", "p", [], [], [⟨"a", ⟨none, "x"⟩⟩], "a", none⟩⟩

/-- Second member for the C6 witness: defines context b only. -/
def useCtxB : KubeConfig :=
  ⟨"pb", ⟨"v1", "Config", "p", [], [], [⟨"b", ⟨none, "y"⟩⟩], "b", none⟩⟩

/-- Witness: an unknown name fails with no mutation and no save; a name
defined only in the second member succeeds, retargets the first member's
current context and saves only the first member. -/
theorem configset_use_context_spec_witness :
    (KubeConfigSet.mk [useCtxA, useCtxB]).use_context "zzz" =
      ⟨some ("Context " ++ "zzz" ++ " not found"), [useCtxA, useCtxB], []⟩ ∧
    (KubeConfigSet.mk [useCtxA, useCtxB]).use_context "b" =
      ⟨none, { useCtxA with raw := { useCtxA.raw with currentContext := "b" } } ::
        [useCtxB], [useCtxA.path]⟩ :=
  ⟨(configset_use_context_spec useCtxA [useCtxB] "zzz").1 (by decide),
   (configset_use_context_spec useCtxA [useCtxB] "b").2.1 (by decide)⟩

theorem renameFirst_values (old new : String) (l : List (NamedEntry ContextSpec)) :
    (renameFirst old new l).map NamedEntry.value = l.map NamedEntry.value := by
  induction l with
  | nil => rfl
  | cons e rest ih =>
    by_cases h : e.name = old
    · simp [renameFirst, h]
    · simp [renameFirst, h, ih]

theorem renameFirst_mem_new (old new : String) (l : List (NamedEntry ContextSpec))
    (h : old ∈ l.map NamedEntry.name) :
    new ∈ (renameFirst old new l).map NamedEntry.name := by
  induction l with
  | nil => simp at h
  | cons e rest ih =>
    by_cases he : e.name = old
    · simp [renameFirst, he]
    · have hrest : old ∈ rest.map NamedEntry.name := by
        rw [List.map_cons] at h
        rcases List.mem_cons.mp h with h1 | h1
        · exact absurd h1.symm he
        · exact h1
      simp [renameFirst, he, ih hrest]

theorem use_context_of_mem (c : KubeConfig) (ctx : String)
    (h : ctx ∈ c.contextNames) :
    c.use_context ctx false =
      ⟨none, { c with raw := { c.raw with currentContext := ctx } }, [c.path]⟩ := by
  have hcond : ¬(false = false ∧ ctx ∉ c.contextNames) := fun hc => hc.2 h
  unfold KubeConfig.use_context
  rw [if_neg hcond]

/-- C7: `rename_context old new` on one config renames the first context
named `old` (specs untouched, `new` afterwards among the context names);
the current context moves to `new` exactly when it was `old`; when no
context is named `old` it fails with the not-found error, unchanged state
and no save. -/
theorem kubeconfig_rename_context_spec (c : KubeConfig) (old new : String) :
    (old ∉ c.contextNames →
      c.rename_context old new =
        ⟨some ("Context " ++ old ++ " not found"), c, []⟩) ∧
    (old ∈ c.contextNames →
      (c.rename_context old new).err = none ∧
      (c.rename_context old new).cfg.path = c.path ∧
      (c.rename_context old new).cfg.raw.contexts =
        renameFirst old new c.raw.contexts ∧
      (c.rename_context old new).cfg.raw.contexts.map NamedEntry.value =
        c.raw.contexts.map NamedEntry.value ∧
      new ∈ (c.rename_context old new).cfg.contextNames ∧
      (c.rename_context old new).cfg.raw.currentContext =
        (if c.raw.currentContext = old then new else c.raw.currentContext)) := by
  constructor
  · intro h
    simp [KubeConfig.rename_context, h]
  · intro h
    have hmem : new ∈ (renameFirst old new c.raw.contexts).map NamedEntry.name :=
      renameFirst_mem_new old new c.raw.contexts
        (by simpa [KubeConfig.contextNames] using h)
    simp only [KubeConfig.rename_context]
    rw [if_pos h]
    by_cases hcur : c.raw.currentContext = old
    · rw [if_pos hcur]
      rw [use_context_of_mem _ new (by simpa [KubeConfig.contextNames] using hmem)]
      refine ⟨rfl, rfl, rfl, renameFirst_values old new c.raw.contexts, ?_, ?_⟩
      · simpa [KubeConfig.contextNames] using hmem
      · simp [hcur]
    · rw [if_neg hcur]
      refine ⟨rfl, rfl, rfl, renameFirst_values old new c.raw.contexts, ?_, ?_⟩
      · simpa [KubeConfig.contextNames] using hmem
      · simp [hcur]

/-- Sample config for the C7 witness: contexts a and b, current context
a. -/
def renameC : KubeConfig :=
  ⟨"pr", ⟨"v1", "Config", "p", [], [],
    [⟨"a", ⟨none, "x"⟩⟩, ⟨"b", ⟨none, "y"⟩⟩], "a", none⟩⟩

/-- Witness: renaming a missing context fails without mutation; renaming
the active context a to z makes z current and a context name. -/
theorem kubeconfig_rename_context_spec_witness :
    renameC.rename_context "q" "z" =
      ⟨some ("Context " ++ "q" ++ " not found"), renameC, []⟩ ∧
    (renameC.rename_context "a" "z").err = none ∧
    (renameC.rename_context "a" "z").cfg.raw.currentContext = "z" ∧
    "z" ∈ (renameC.rename_context "a" "z").cfg.contextNames := by
  have h1 := (kubeconfig_rename_context_spec renameC "q" "z").1 (by decide)
  have h2 := (kubeconfig_rename_context_spec renameC "a" "z").2 (by decide)
  refine ⟨h1, h2.1, ?_, h2.2.2.2.2.1⟩
  rw [h2.2.2.2.2.2]
  decide

/-- C8: `use_namespace` never raises and always performs the save step;
when no context entry is named like the current context the config is
left unchanged; every context entry of the result named like the current
context carries namespace `ns`. -/
theorem kubeconfig_use_namespace_spec (c : KubeConfig) (ns : String) :
    (c.use_namespace ns).err = none ∧
    (c.use_namespace ns).saves = [c.path] ∧
    ((∀ e ∈ c.raw.contexts, e.name ≠ c.raw.currentContext) →
      (c.use_namespace ns).cfg = c) ∧
    (∀ e ∈ (c.use_namespace ns).cfg.raw.contexts,
      e.name = c.raw.currentContext → e.value.nspace = some ns) := by
  refine ⟨rfl, rfl, ?_, ?_⟩
  · intro h
    have hmap : c.raw.contexts.map (fun e =>
        if e.name = c.raw.currentContext then
          (⟨e.name, ⟨some ns, e.value.extra⟩⟩ : NamedEntry ContextSpec) else e) =
        c.raw.contexts := by
      calc c.raw.contexts.map (fun e =>
            if e.name = c.raw.currentContext then
              (⟨e.name, ⟨some ns, e.value.extra⟩⟩ : NamedEntry ContextSpec) else e)
          = c.raw.contexts.map id := by
            apply List.map_congr_left
            intro a ha
            simp [h a ha]
        _ = c.raw.contexts := List.map_id c.raw.contexts
    simp only [KubeConfig.use_namespace]
    rw [hmap]
  · intro e he hname
    simp only [KubeConfig.use_namespace] at he
    rcases List.mem_map.mp he with ⟨a, ha, hae⟩
    by_cases hA : a.name = c.raw.currentContext
    · rw [← hae, if_pos hA]
    · exfalso
      rw [if_neg hA] at hae
      rw [← hae] at hname
      exact hA hname

/-- Sample config for the C8 witness whose current context names no
context entry. -/
def nsA : KubeConfig :=
  ⟨"pn", ⟨"v1", "Config", "p", [], [], [⟨"a", ⟨none, "x"⟩⟩], "zz", none⟩⟩

/-- Sample config for the C8 witness whose current context is the single
context entry a. -/
def nsB : KubeConfig :=
  ⟨"pm", ⟨"v1", "Config", "p", [], [], [⟨"a", ⟨some "old", "x"⟩⟩], "a", none⟩⟩

/-- Witness: with no matching context the config is unchanged but the
save still happens; with a matching context its namespace is set. -/
theorem kubeconfig_use_namespace_spec_witness :
    (nsA.use_namespace "n1").err = none ∧
    (nsA.use_namespace "n1").saves = [nsA.path] ∧
    (nsA.use_namespace "n1").cfg = nsA ∧
    (⟨"a", ⟨some "n1", "x"⟩⟩ : NamedEntry ContextSpec).value.nspace = some "n1" :=
  ⟨(kubeconfig_use_namespace_spec nsA "n1").1,
   (kubeconfig_use_namespace_spec nsA "n1").2.1,
   (kubeconfig_use_namespace_spec nsA "n1").2.2.1 (by decide),
   (kubeconfig_use_namespace_spec nsB "n1").2.2.2 ⟨"a", ⟨some "n1", "x"⟩⟩
     (by decide) (by decide)⟩

/-- First member for the C9 counterexample and witness, with preferences
p1. -/
def prefA : KubeConfig :=
  ⟨"pa", ⟨"v1", "Config", "p1", [], [], [], "ctx", none⟩⟩

/-- Second member for the C9 counterexample, with preferences p2. -/
def prefB : KubeConfig :=
  ⟨"pb", ⟨"v1", "Config", "p2", [], [], [], "ctx", none⟩⟩

/-- Alternative second member for the C9 counterexample, with preferences
p3. -/
def prefB2 : KubeConfig :=
  ⟨"pb", ⟨"v1", "Config", "p3", [], [], [], "ctx", none⟩⟩

/-- C9 counterexample: `raw.preferences` is insensitive to the second
member (two sets with different second-member preferences give the same
value, namely the first member's p1), so it is merely the first member's
preferences, not a merge of all members' preferences as the claim
states. -/
theorem configset_raw_preferences_cex :
    (KubeConfigSet.mk [prefA, prefB]).raw.preferences = "p1" ∧
    (KubeConfigSet.mk [prefA, prefB2]).raw.preferences = "p1" ∧
    prefB.raw.preferences = "p2" ∧ prefB2.raw.preferences = "p3" ∧
    ("p1" : String) ≠ "p2" :=
  ⟨rfl, rfl, rfl, rfl, by decide⟩

/-- C9 (amended): the `raw` projection carries apiVersion v1 and kind
Config; its preferences equal the first member's preferences (later
members' preferences are ignored); its clusters, users and contexts are
the deduplicated merges (no duplicate names remain); its current-context
is the set's current context, i.e. the first member's; and the extensions
key is present exactly when the concatenation of the members' extensions
is non-empty, in which case it holds that concatenation. -/
theorem configset_raw_spec (c0 : KubeConfig) (rest : List KubeConfig) :
    (KubeConfigSet.mk (c0 :: rest)).raw.apiVersion = "v1" ∧
    (KubeConfigSet.mk (c0 :: rest)).raw.kind = "Config" ∧
    (KubeConfigSet.mk (c0 :: rest)).raw.preferences = c0.raw.preferences ∧
    (KubeConfigSet.mk (c0 :: rest)).raw.clusters =
      mergeByName ((c0 :: rest).map KubeConfig.clusters).flatten ∧
    ((KubeConfigSet.mk (c0 :: rest)).raw.clusters.map NamedEntry.name).Nodup ∧
    (KubeConfigSet.mk (c0 :: rest)).raw.users =
      mergeByName ((c0 :: rest).map KubeConfig.users).flatten ∧
    ((KubeConfigSet.mk (c0 :: rest)).raw.users.map NamedEntry.name).Nodup ∧
    (KubeConfigSet.mk (c0 :: rest)).raw.contexts =
      mergeByName ((c0 :: rest).map KubeConfig.contexts).flatten ∧
    ((KubeConfigSet.mk (c0 :: rest)).raw.contexts.map NamedEntry.name).Nodup ∧
    (KubeConfigSet.mk (c0 :: rest)).raw.currentContext = c0.raw.currentContext ∧
    ((KubeConfigSet.mk (c0 :: rest)).raw.extensionsField = none ↔
      ∀ c ∈ c0 :: rest, c.extensions = ([] : List String)) ∧
    ((KubeConfigSet.mk (c0 :: rest)).raw.extensionsField ≠ none →
      (KubeConfigSet.mk (c0 :: rest)).raw.extensionsField =
        some ((c0 :: rest).map KubeConfig.extensions).flatten) := by
  refine ⟨rfl, rfl, rfl, rfl, mergeByName_names_nodup _, rfl,
    mergeByName_names_nodup _, rfl, mergeByName_names_nodup _, rfl, ?_, ?_⟩
  · have key : ((KubeConfigSet.mk (c0 :: rest)).raw.extensionsField = none) ↔
        (KubeConfigSet.mk (c0 :: rest)).extensions = [] := by
      simp only [KubeConfigSet.raw]
      by_cases hx : (KubeConfigSet.mk (c0 :: rest)).extensions = []
      · simp [hx]
      · simp [hx]
    rw [key, KubeConfigSet.extensions, List.flatten_eq_nil_iff]
    constructor
    · intro h c hc
      exact h _ (List.mem_map_of_mem _ hc)
    · intro h l hl
      rcases List.mem_map.mp hl with ⟨c, hc, rfl⟩
      exact h c hc
  · intro hne
    simp only [KubeConfigSet.raw] at hne ⊢
    by_cases hx : (KubeConfigSet.mk (c0 :: rest)).extensions = []
    · simp [hx] at hne
    · rw [if_neg hx]
      rfl

/-- Second member for the C9 witness, carrying an extensions payload. -/
def extA : KubeConfig :=
  ⟨"px", ⟨"v1", "Config", "p", [], [], [], "ctx", some ["e1"]⟩⟩

/-- Witness: on a concrete two-member set the raw view keeps apiVersion
v1, the first member's preferences, and materialises the extensions key
with the concatenated payload. -/
theorem configset_raw_spec_witness :
    (KubeConfigSet.mk [prefA, extA]).raw.apiVersion = "v1" ∧
    (KubeConfigSet.mk [prefA, extA]).raw.preferences = prefA.raw.preferences ∧
    (KubeConfigSet.mk [prefA, extA]).raw.extensionsField = some ["e1"] := by
  obtain ⟨hapi, hkind, hpref, _, _, _, _, _, _, hcur, hiff, himp⟩ :=
    configset_raw_spec prefA [extA]
  refine ⟨hapi, hpref, ?_⟩
  have hsome := himp (by decide)
  rw [hsome]
  decide

/-- Member for the C10 witness: its current context gone names no
context. -/
def danglingA : KubeConfig :=
  ⟨"pd", ⟨"v1", "Config", "p", [], [], [⟨"a", ⟨none, "x"⟩⟩], "gone", none⟩⟩

/-- C10: when the first member's current context is absent from the merged
context list, `current_namespace` propagates the not-found error from
`get_context` instead of returning the default namespace. -/
theorem configset_current_namespace_dangling (c0 : KubeConfig)
    (rest : List KubeConfig)
    (h : (KubeConfigSet.mk (c0 :: rest)).current_context ∉
      (KubeConfigSet.mk (c0 :: rest)).contexts.map NamedEntry.name) :
    (KubeConfigSet.mk (c0 :: rest)).current_namespace =
      Except.error ("Context " ++ c0.raw.currentContext ++ " not found") ∧
    (KubeConfigSet.mk (c0 :: rest)).current_namespace ≠
      Except.ok "default" := by
  have hfind : (KubeConfigSet.mk (c0 :: rest)).contexts.find?
      (fun e => e.name == (KubeConfigSet.mk (c0 :: rest)).current_context) = none :=
    find_none_of_not_mem_names _ _ h
  have heq : (KubeConfigSet.mk (c0 :: rest)).current_namespace =
      Except.error ("Context " ++ c0.raw.currentContext ++ " not found") := by
    simp only [KubeConfigSet.current_namespace, KubeConfigSet.get_context, hfind]
    rfl
  refine ⟨heq, ?_⟩
  rw [heq]
  exact fun hx => Except.noConfusion hx

/-- Witness: a single-member set whose current context gone is undefined
fails with the not-found error rather than yielding default. -/
theorem configset_current_namespace_dangling_witness :
    (KubeConfigSet.mk [danglingA]).current_namespace =
      Except.error ("Context " ++ "gone" ++ " not found") ∧
    (KubeConfigSet.mk [danglingA]).current_namespace ≠ Except.ok "default" :=
  configset_current_namespace_dangling danglingA [] (by decide)
